import Mathlib

/-!
Verification of `secretly` (src/secretly/_impl.py): an Assuan-protocol
speaker (`SimpleAssuan`) driving an external pinentry program, the
pinentry discovery logic (`Pinentry.argv`, `choosePinentry`,
`ttynameArgument`), the prompt session (`askForPassword`) and the
fetch-or-prompt loop (`secretly`).

Byte strings are modelled as `List Nat` (one entry per byte).  Text
values are modelled by their UTF-8 byte sequences, so Python's
`encode("utf-8")` / `decode("utf-8")` are the identity of the model.
-/

namespace Secretly

/-- Python `bytes.startswith`: `startsWith pat l` is true when `pat` is a
prefix of `l`. -/
def startsWith : List Nat → List Nat → Bool
  | [], _ => true
  | _ :: _, [] => false
  | p :: ps, x :: xs => p == x && startsWith ps xs

/-- Helper for `replaceAll`: while `skip` is positive, consume bytes of
an occurrence already replaced; at `skip = 0`, scan for the next
occurrence of `pat`. -/
def replaceAllAux (pat rep : List Nat) : Nat → List Nat → List Nat
  | _, [] => []
  | skip + 1, _ :: xs => replaceAllAux pat rep skip xs
  | 0, x :: xs =>
    if startsWith pat (x :: xs) && !pat.isEmpty then
      rep ++ replaceAllAux pat rep (pat.length - 1) xs
    else
      x :: replaceAllAux pat rep 0 xs

/-- Python `bytes.replace pat rep`: replace each non-overlapping
occurrence of `pat`, scanning left to right (for nonempty `pat`). -/
def replaceAll (pat rep l : List Nat) : List Nat :=
  replaceAllAux pat rep 0 l

/-- `b"OK"` -/
def okBytes : List Nat := [79, 75]

/-- `b"ERR"` -/
def errBytes : List Nat := [69, 82, 82]

/-- `b"D "` -/
def dBytes : List Nat := [68, 32]

/-- `b"#"` -/
def hashBytes : List Nat := [35]

/-- The escape decoding applied to the remainder of a `D ` line in
`SimpleAssuan.lineReceived`:
`.replace(b"%0A", b"\r").replace(b"%0D", b"\n").replace(b"%25", b"%")`,
in that order (`%0A` = `[37,48,65]`, CR = 13; `%0D` = `[37,48,68]`,
LF = 10; `%25` = `[37,50,53]`, `%` = 37). -/
def decodeData (payload : List Nat) : List Nat :=
  replaceAll [37, 50, 53] [37]
    (replaceAll [37, 48, 68] [10]
      (replaceAll [37, 48, 65] [13] payload))

/-- `AssuanResponse(data, debugInfo)` from the source. -/
structure AssuanResponse where
  data : List Nat
  debugInfo : List Nat
deriving DecidableEq, Repr

/-- How one pending request (`Deferred`) is resolved: its `callback`
with an `AssuanResponse`, or its `errback` with an `AssuanError`
carrying the raw line.  Requests are identified by the `Nat` id given
at issue time. -/
inductive Resolution where
  | fulfilled (req : Nat) (resp : AssuanResponse)
  | failed (req : Nat) (line : List Nat)
deriving DecidableEq, Repr

/-- The mutable state of one `SimpleAssuan` instance: `_ready`, the
pending deferred queue `_dq` (request ids, oldest first) and
`_bufferedData`. -/
structure ConnectionState where
  ready : Bool
  dq : List Nat
  bufferedData : List (List Nat)
deriving DecidableEq, Repr

/-- `SimpleAssuan.__init__`. -/
def initState : ConnectionState := ⟨false, [], []⟩

/-- `SimpleAssuan._currentResponse`: join the buffered fragments into a
response and clear the buffer. -/
def currentResponse (s : ConnectionState) (debugInfo : List Nat) :
    AssuanResponse × ConnectionState :=
  (⟨s.bufferedData.flatten, debugInfo⟩, { s with bufferedData := [] })

/-- `SimpleAssuan.issueCommand` state effect: append a fresh pending
request to the queue.  (The outgoing line is
`b" ".join([command] + args)`, modelled by `cmdLine` below.) -/
def issueCommand (s : ConnectionState) (reqId : Nat) : ConnectionState :=
  { s with dq := s.dq ++ [reqId] }

/-- `SimpleAssuan.lineReceived`.  Returns the new state and the list of
resolutions fired by this line (in order), or `none` where the Python
code would crash (`pop` / `pop(0)` on an empty `_dq`).  The source runs
the `#`, `OK`, `D ` and `ERR` checks sequentially on the same line, so
the model threads the state through all four in that order. -/
def lineReceived (s : ConnectionState) (line : List Nat) :
    Option (ConnectionState × List Resolution) :=
  if startsWith hashBytes line then some (s, [])
  else do
    let (s1, ev1) ←
      if startsWith okBytes line then
        if s.ready then
          match s.dq with
          | [] => none
          | r :: rest =>
            let (resp, sc) := currentResponse s line
            some ({ sc with dq := rest }, [Resolution.fulfilled r resp])
        else some ({ s with ready := true }, ([] : List Resolution))
      else some (s, ([] : List Resolution))
    let s2 :=
      if startsWith dBytes line then
        { s1 with bufferedData := s1.bufferedData ++ [decodeData (line.drop 2)] }
      else s1
    let (s3, ev3) ←
      if startsWith errBytes line then
        match s2.dq with
        | [] => none
        | r :: rest => some ({ s2 with dq := rest }, [Resolution.failed r line])
      else some (s2, ([] : List Resolution))
    some (s3, ev1 ++ ev3)

/-- One externally visible operation on a connection: the caller issues
a command (getting pending request `reqId`), or the transport delivers
a line. -/
inductive Op where
  | issue (reqId : Nat)
  | recv (line : List Nat)
deriving DecidableEq, Repr

/-- Single-operation transition. -/
def step (s : ConnectionState) : Op → Option (ConnectionState × List Resolution)
  | Op.issue r => some (issueCommand s r, [])
  | Op.recv l => lineReceived s l

/-- Run a sequence of operations, collecting all resolutions in order. -/
def run (s : ConnectionState) : List Op → Option (ConnectionState × List Resolution)
  | [] => some (s, [])
  | op :: ops => do
      let (s1, ev1) ← step s op
      let (s2, ev2) ← run s1 ops
      some (s2, ev1 ++ ev2)

theorem startsWith_ok_shape {l : List Nat} (h : startsWith okBytes l = true) :
    ∃ t, l = 79 :: 75 :: t := by
  match l with
  | [] => simp [startsWith, okBytes] at h
  | [a] => simp [startsWith, okBytes] at h
  | a :: b :: t =>
    simp [startsWith, okBytes] at h
    exact ⟨t, by simp [h.1, h.2]⟩

theorem startsWith_err_shape {l : List Nat} (h : startsWith errBytes l = true) :
    ∃ t, l = 69 :: 82 :: 82 :: t := by
  match l with
  | [] => simp [startsWith, errBytes] at h
  | [a] => simp [startsWith, errBytes] at h
  | [a, b] => simp [startsWith, errBytes] at h
  | a :: b :: c :: t =>
    simp [startsWith, errBytes] at h
    obtain ⟨h1, h2, h3⟩ := h
    subst h1; subst h2; subst h3
    exact ⟨t, rfl⟩

theorem startsWith_d_shape {l : List Nat} (h : startsWith dBytes l = true) :
    ∃ t, l = 68 :: 32 :: t := by
  match l with
  | [] => simp [startsWith, dBytes] at h
  | [a] => simp [startsWith, dBytes] at h
  | a :: b :: t =>
    simp [startsWith, dBytes] at h
    exact ⟨t, by simp [h.1, h.2]⟩

theorem startsWith_hash_shape {l : List Nat} (h : startsWith hashBytes l = true) :
    ∃ t, l = 35 :: t := by
  match l with
  | [] => simp [startsWith, hashBytes] at h
  | a :: t =>
    simp [startsWith, hashBytes] at h
    exact ⟨t, by simp [h]⟩

theorem lineReceived_hash_eq (s : ConnectionState) (t : List Nat) :
    lineReceived s (35 :: t) = some (s, []) := by
  simp [lineReceived, startsWith, hashBytes]

theorem lineReceived_ok_ready_eq (s : ConnectionState) (t : List Nat)
    (r : Nat) (rest : List Nat) (hr : s.ready = true) (hq : s.dq = r :: rest) :
    lineReceived s (79 :: 75 :: t) =
      some (⟨true, rest, []⟩,
        [Resolution.fulfilled r ⟨s.bufferedData.flatten, 79 :: 75 :: t⟩]) := by
  simp [lineReceived, startsWith, hashBytes, okBytes, dBytes, errBytes,
    hr, hq, currentResponse]

theorem lineReceived_ok_ready_empty (s : ConnectionState) (t : List Nat)
    (hr : s.ready = true) (hq : s.dq = []) :
    lineReceived s (79 :: 75 :: t) = none := by
  simp [lineReceived, startsWith, hashBytes, okBytes, hr, hq]

theorem lineReceived_ok_unready_eq (s : ConnectionState) (t : List Nat)
    (hr : s.ready = false) :
    lineReceived s (79 :: 75 :: t) = some ({ s with ready := true }, []) := by
  simp [lineReceived, startsWith, hashBytes, okBytes, dBytes, errBytes, hr]

theorem lineReceived_err_eq (s : ConnectionState) (t : List Nat)
    (r : Nat) (rest : List Nat) (hq : s.dq = r :: rest) :
    lineReceived s (69 :: 82 :: 82 :: t) =
      some ({ s with dq := rest }, [Resolution.failed r (69 :: 82 :: 82 :: t)]) := by
  simp [lineReceived, startsWith, hashBytes, okBytes, dBytes, errBytes, hq]

theorem lineReceived_err_empty (s : ConnectionState) (t : List Nat)
    (hq : s.dq = []) :
    lineReceived s (69 :: 82 :: 82 :: t) = none := by
  simp [lineReceived, startsWith, hashBytes, okBytes, dBytes, errBytes, hq]

theorem lineReceived_d_eq (s : ConnectionState) (t : List Nat) :
    lineReceived s (68 :: 32 :: t) =
      some ({ s with bufferedData := s.bufferedData ++ [decodeData t] }, []) := by
  simp [lineReceived, startsWith, hashBytes, okBytes, dBytes, errBytes]

theorem lineReceived_other_eq (s : ConnectionState) (l : List Nat)
    (h1 : startsWith hashBytes l = false) (h2 : startsWith okBytes l = false)
    (h3 : startsWith dBytes l = false) (h4 : startsWith errBytes l = false) :
    lineReceived s l = some (s, []) := by
  simp [lineReceived, h1, h2, h3, h4]

/-- `FifoResolved ids lines evs` says the resolution events `evs` pair
the issued requests `ids` with the reply `lines` positionally, in issue
order: the i-th event fulfills the i-th request when the i-th line is
an `OK` line, and fails it with an `AssuanError` carrying the raw line
when the i-th line is an `ERR` line. -/
inductive FifoResolved : List Nat → List (List Nat) → List Resolution → Prop where
  | nil : FifoResolved [] [] []
  | ok {r : Nat} {l : List Nat} (resp : AssuanResponse)
      {ids : List Nat} {lines : List (List Nat)} {evs : List Resolution} :
      startsWith okBytes l = true → FifoResolved ids lines evs →
      FifoResolved (r :: ids) (l :: lines) (Resolution.fulfilled r resp :: evs)
  | err {r : Nat} {l : List Nat}
      {ids : List Nat} {lines : List (List Nat)} {evs : List Resolution} :
      startsWith errBytes l = true → FifoResolved ids lines evs →
      FifoResolved (r :: ids) (l :: lines) (Resolution.failed r l :: evs)

theorem fifoResolved_length {ids : List Nat} {lines : List (List Nat)}
    {evs : List Resolution} (h : FifoResolved ids lines evs) :
    evs.length = ids.length := by
  induction h with
  | nil => rfl
  | ok resp hok htail ih => simp [ih]
  | err herr htail ih => simp [ih]

theorem run_cons_some {s s1 : ConnectionState} {op : Op} {ev1 : List Resolution}
    (h : step s op = some (s1, ev1)) (ops : List Op) :
    run s (op :: ops) = (run s1 ops).map (fun q => (q.1, ev1 ++ q.2)) := by
  cases hr : run s1 ops with
  | none => simp [run, h, hr]
  | some p => simp [run, h, hr]

theorem run_cons_none {s : ConnectionState} {op : Op}
    (h : step s op = none) (ops : List Op) :
    run s (op :: ops) = none := by
  simp [run, h]

theorem run_issues (ids : List Nat) (s : ConnectionState) (ops : List Op) :
    run s (ids.map Op.issue ++ ops) = run { s with dq := s.dq ++ ids } ops := by
  induction ids generalizing s with
  | nil => simp
  | cons r rest ih =>
    rw [List.map_cons, List.cons_append,
      run_cons_some (show step s (Op.issue r) = some (issueCommand s r, []) from rfl),
      ih]
    have h2 : ({ issueCommand s r with
        dq := (issueCommand s r).dq ++ rest } : ConnectionState) =
        { s with dq := s.dq ++ (r :: rest) } := by
      simp [issueCommand]
    rw [h2]
    cases run { s with dq := s.dq ++ (r :: rest) } ops with
    | none => rfl
    | some p => simp

theorem run_recv_phase (lines : List (List Nat)) (ids : List Nat)
    (buf : List (List Nat)) (hlen : ids.length = lines.length)
    (hkind : ∀ l ∈ lines,
      startsWith okBytes l = true ∨ startsWith errBytes l = true) :
    ∃ evs buf2,
      run ⟨true, ids, buf⟩ (lines.map Op.recv) = some (⟨true, [], buf2⟩, evs) ∧
        FifoResolved ids lines evs := by
  induction lines generalizing ids buf with
  | nil =>
    match ids with
    | [] => exact ⟨[], buf, by simp [run], FifoResolved.nil⟩
  | cons l ls ih =>
    match ids with
    | r :: rs =>
      have hlen2 : rs.length = ls.length := by
        simpa using hlen
      have hk : ∀ x ∈ ls,
          startsWith okBytes x = true ∨ startsWith errBytes x = true :=
        fun x hx => hkind x (List.mem_cons_of_mem l hx)
      cases hkind l (List.mem_cons_self l ls) with
      | inl hok =>
        obtain ⟨t, ht⟩ := startsWith_ok_shape hok
        subst ht
        obtain ⟨evs, buf2, hrun, hfifo⟩ := ih rs [] hlen2 hk
        refine ⟨Resolution.fulfilled r ⟨buf.flatten, 79 :: 75 :: t⟩ :: evs, buf2,
          ?_, FifoResolved.ok _ hok hfifo⟩
        simp only [List.map_cons, run, step]
        rw [lineReceived_ok_ready_eq ⟨true, r :: rs, buf⟩ t r rs rfl rfl]
        simp [hrun]
      | inr herr =>
        obtain ⟨t, ht⟩ := startsWith_err_shape herr
        subst ht
        obtain ⟨evs, buf2, hrun, hfifo⟩ := ih rs buf hlen2 hk
        refine ⟨Resolution.failed r (69 :: 82 :: 82 :: t) :: evs, buf2,
          ?_, FifoResolved.err herr hfifo⟩
        simp only [List.map_cons, run, step]
        rw [lineReceived_err_eq ⟨true, r :: rs, buf⟩ t r rs rfl]
        simp [hrun]

/-- C1: starting from a Ready connection with no outstanding requests,
issuing N commands (pending requests `ids`, in issue order) and then
delivering N reply lines in order, each an `OK` or an `ERR` line,
resolves the pending requests in exactly the order the commands were
issued, each exactly once: the i-th event fulfills the i-th request
with an `AssuanResponse` when line i is `OK`, and fails it with an
`AssuanError` carrying the raw line when line i is `ERR`. -/
theorem fifo_correlation (buf : List (List Nat)) (ids : List Nat)
    (lines : List (List Nat)) (hlen : ids.length = lines.length)
    (hkind : ∀ l ∈ lines,
      startsWith okBytes l = true ∨ startsWith errBytes l = true) :
    ∃ sf evs,
      run ⟨true, [], buf⟩ (ids.map Op.issue ++ lines.map Op.recv) =
        some (sf, evs) ∧
      evs.length = ids.length ∧ FifoResolved ids lines evs := by
  rw [run_issues]
  obtain ⟨evs, buf2, hrun, hfifo⟩ := run_recv_phase lines ids buf hlen hkind
  refine ⟨⟨true, [], buf2⟩, evs, ?_, fifoResolved_length hfifo, hfifo⟩
  simpa using hrun

/-- Witness for C1 at N = 2: requests 1 and 2, replies `OK` then
`ERR c`. -/
theorem fifo_correlation_witness :
    ∃ sf evs,
      run ⟨true, [], []⟩
          (([1, 2] : List Nat).map Op.issue ++
            ([[79, 75], [69, 82, 82, 32, 99]] : List (List Nat)).map Op.recv) =
        some (sf, evs) ∧
      evs.length = ([1, 2] : List Nat).length ∧
      FifoResolved [1, 2] [[79, 75], [69, 82, 82, 32, 99]] evs :=
  fifo_correlation [] [1, 2] [[79, 75], [69, 82, 82, 32, 99]]
    (by decide) (by decide)

/-- C2: in any connection state, a received line starting with the two
bytes `D ` (68, 32) appends to the data buffer exactly the line's
remainder after the 2-byte head, decoded by replacing every `%0A`
(37, 48, 65) with a carriage-return byte (13), then every `%0D`
(37, 48, 68) with a line-feed byte (10), then every `%25` (37, 50, 53)
with a percent byte (37), in that order; no pending request is
resolved by such a line. -/
theorem data_line_decoding (s : ConnectionState) (line : List Nat)
    (h : startsWith dBytes line = true) :
    lineReceived s line =
      some ({ s with bufferedData := s.bufferedData ++
        [replaceAll [37, 50, 53] [37]
          (replaceAll [37, 48, 68] [10]
            (replaceAll [37, 48, 65] [13] (line.drop 2)))] }, []) := by
  obtain ⟨t, ht⟩ := startsWith_d_shape h
  subst ht
  simpa [decodeData] using lineReceived_d_eq s t

/-- Witness for C2: the line `D %0A%0D%25x` buffers the fragment
`CR LF % x` = `[13, 10, 37, 120]`. -/
theorem data_line_decoding_witness :
    lineReceived ⟨true, [5], []⟩
        [68, 32, 37, 48, 65, 37, 48, 68, 37, 50, 53, 120] =
      some ({ (⟨true, [5], []⟩ : ConnectionState) with
        bufferedData := (⟨true, [5], []⟩ : ConnectionState).bufferedData ++
          [replaceAll [37, 50, 53] [37]
            (replaceAll [37, 48, 68] [10]
              (replaceAll [37, 48, 65] [13]
                (([68, 32, 37, 48, 65, 37, 48, 68, 37, 50, 53, 120] :
                  List Nat).drop 2)))] }, []) :=
  data_line_decoding ⟨true, [5], []⟩
    [68, 32, 37, 48, 65, 37, 48, 68, 37, 50, 53, 120] (by decide)

/-- Exhaustive description of a successful `lineReceived` transition:
the line is a comment, the greeting `OK`, an `OK` reply resolving the
oldest request, a `D ` data fragment, an `ERR` failing the oldest
request, or unrecognized. -/
theorem lineReceived_cases {s s1 : ConnectionState} {l : List Nat}
    {evs : List Resolution} (h : lineReceived s l = some (s1, evs)) :
    (startsWith hashBytes l = true ∧ s1 = s ∧ evs = []) ∨
    (startsWith okBytes l = true ∧ s.ready = false ∧
      s1 = { s with ready := true } ∧ evs = []) ∨
    (∃ r rest, startsWith okBytes l = true ∧ s.ready = true ∧
      s.dq = r :: rest ∧ s1 = ⟨true, rest, []⟩ ∧
      evs = [Resolution.fulfilled r ⟨s.bufferedData.flatten, l⟩]) ∨
    (startsWith dBytes l = true ∧
      s1 = { s with bufferedData := s.bufferedData ++ [decodeData (l.drop 2)] } ∧
      evs = []) ∨
    (∃ r rest, startsWith errBytes l = true ∧ s.dq = r :: rest ∧
      s1 = { s with dq := rest } ∧ evs = [Resolution.failed r l]) ∨
    (startsWith hashBytes l = false ∧ startsWith okBytes l = false ∧
      startsWith dBytes l = false ∧ startsWith errBytes l = false ∧
      s1 = s ∧ evs = []) := by
  by_cases hh : startsWith hashBytes l = true
  · obtain ⟨t, ht⟩ := startsWith_hash_shape hh
    subst ht
    rw [lineReceived_hash_eq] at h
    simp only [Option.some.injEq, Prod.mk.injEq] at h
    exact Or.inl ⟨hh, h.1.symm, h.2.symm⟩
  · by_cases hok : startsWith okBytes l = true
    · obtain ⟨t, ht⟩ := startsWith_ok_shape hok
      subst ht
      by_cases hr : s.ready = true
      · cases hq : s.dq with
        | nil =>
          rw [lineReceived_ok_ready_empty s t hr hq] at h
          exact absurd h (by simp)
        | cons r rest =>
          rw [lineReceived_ok_ready_eq s t r rest hr hq] at h
          simp only [Option.some.injEq, Prod.mk.injEq] at h
          exact Or.inr (Or.inr (Or.inl ⟨r, rest, hok, hr, rfl, h.1.symm, h.2.symm⟩))
      · rw [lineReceived_ok_unready_eq s t (by simpa using hr)] at h
        simp only [Option.some.injEq, Prod.mk.injEq] at h
        exact Or.inr (Or.inl ⟨hok, by simpa using hr, h.1.symm, h.2.symm⟩)
    · by_cases hd : startsWith dBytes l = true
      · obtain ⟨t, ht⟩ := startsWith_d_shape hd
        subst ht
        rw [lineReceived_d_eq] at h
        simp only [Option.some.injEq, Prod.mk.injEq] at h
        refine Or.inr (Or.inr (Or.inr (Or.inl ⟨hd, ?_, h.2.symm⟩)))
        rw [← h.1]
        rfl
      · by_cases herr : startsWith errBytes l = true
        · obtain ⟨t, ht⟩ := startsWith_err_shape herr
          subst ht
          cases hq : s.dq with
          | nil =>
            rw [lineReceived_err_empty s t hq] at h
            exact absurd h (by simp)
          | cons r rest =>
            rw [lineReceived_err_eq s t r rest hq] at h
            simp only [Option.some.injEq, Prod.mk.injEq] at h
            exact Or.inr (Or.inr (Or.inr (Or.inr (Or.inl
              ⟨r, rest, herr, rfl, h.1.symm, h.2.symm⟩))))
        · rw [lineReceived_other_eq s l (by simpa using hh) (by simpa using hok)
            (by simpa using hd) (by simpa using herr)] at h
          simp only [Option.some.injEq, Prod.mk.injEq] at h
          exact Or.inr (Or.inr (Or.inr (Or.inr (Or.inr
            ⟨by simpa using hh, by simpa using hok, by simpa using hd,
             by simpa using herr, h.1.symm, h.2.symm⟩))))

theorem run_cons_inv {s sf : ConnectionState} {op : Op} {ops : List Op}
    {evs : List Resolution} (h : run s (op :: ops) = some (sf, evs)) :
    ∃ s1 ev1 ev2, step s op = some (s1, ev1) ∧ run s1 ops = some (sf, ev2) ∧
      evs = ev1 ++ ev2 := by
  cases hs : step s op with
  | none => rw [run_cons_none hs] at h; exact absurd h (by simp)
  | some p =>
    obtain ⟨s1, ev1⟩ := p
    rw [run_cons_some hs] at h
    cases hr : run s1 ops with
    | none => rw [hr] at h; exact absurd h (by simp)
    | some q =>
      obtain ⟨s2, ev2⟩ := q
      rw [hr] at h
      simp only [Option.map_some', Option.some.injEq, Prod.mk.injEq] at h
      exact ⟨s1, ev1, ev2, rfl, by rw [hr, h.1], h.2.symm⟩

theorem step_ready_some {s s1 : ConnectionState} {op : Op} {evs : List Resolution}
    (h : step s op = some (s1, evs)) :
    (s.ready = true → s1.ready = true) ∧
    (s.ready = false →
      ((s1.ready = true) ↔ ∃ l, op = Op.recv l ∧ startsWith okBytes l = true) ∧
      (s1.ready = true → evs = [])) := by
  cases op with
  | issue r =>
    simp only [step, Option.some.injEq, Prod.mk.injEq] at h
    obtain ⟨h1, h2⟩ := h
    subst h2
    constructor
    · intro hr
      rw [← h1]
      simpa [issueCommand] using hr
    · intro hf
      have hready : s1.ready = false := by
        rw [← h1]; simpa [issueCommand] using hf
      refine ⟨⟨fun ht => absurd ht (by simp [hready]), ?_⟩, fun _ => rfl⟩
      rintro ⟨l, hl, -⟩
      exact absurd hl (by simp)
  | recv l =>
    have hlr : lineReceived s l = some (s1, evs) := h
    rcases lineReceived_cases hlr with
      ⟨hh, h1, h2⟩ | ⟨hok, hrf, h1, h2⟩ | ⟨r, rest, hok, hrt, hq, h1, h2⟩ |
      ⟨hd, h1, h2⟩ | ⟨r, rest, herr, hq, h1, h2⟩ | ⟨hh, hok, hd, herr, h1, h2⟩
    · subst h1; subst h2
      refine ⟨fun hr => hr,
        fun hf => ⟨⟨fun ht => absurd ht (by simp [hf]), ?_⟩, fun _ => rfl⟩⟩
      rintro ⟨l2, hl2, hok2⟩
      injection hl2 with hx
      subst hx
      obtain ⟨t, rfl⟩ := startsWith_hash_shape hh
      simp [startsWith, okBytes] at hok2
    · subst h1; subst h2
      exact ⟨fun _ => rfl,
        fun _ => ⟨⟨fun _ => ⟨l, rfl, hok⟩, fun _ => rfl⟩, fun _ => rfl⟩⟩
    · subst h1; subst h2
      exact ⟨fun _ => rfl, fun hf => absurd hrt (by simp [hf])⟩
    · subst h1; subst h2
      refine ⟨fun hr => hr,
        fun hf => ⟨⟨fun ht => absurd ht (by simp [hf]), ?_⟩, fun _ => rfl⟩⟩
      rintro ⟨l2, hl2, hok2⟩
      injection hl2 with hx
      subst hx
      obtain ⟨t, rfl⟩ := startsWith_d_shape hd
      simp [startsWith, okBytes] at hok2
    · subst h1; subst h2
      refine ⟨fun hr => hr, fun hf =>
        ⟨⟨fun ht => absurd (show s.ready = true from ht) (by simp [hf]), ?_⟩,
         fun ht => absurd (show s.ready = true from ht) (by simp [hf])⟩⟩
      rintro ⟨l2, hl2, hok2⟩
      injection hl2 with hx
      subst hx
      obtain ⟨t, rfl⟩ := startsWith_err_shape herr
      simp [startsWith, okBytes] at hok2
    · subst h1; subst h2
      refine ⟨fun hr => hr,
        fun hf => ⟨⟨fun ht => absurd ht (by simp [hf]), ?_⟩, fun _ => rfl⟩⟩
      rintro ⟨l2, hl2, hok2⟩
      injection hl2 with hx
      subst hx
      exact absurd hok2 (by simp [hok])

theorem run_ready {ops : List Op} : ∀ {s sf : ConnectionState}
    {evs : List Resolution}, run s ops = some (sf, evs) →
    (sf.ready = true ↔
      (s.ready = true ∨ ∃ l, Op.recv l ∈ ops ∧ startsWith okBytes l = true)) := by
  induction ops with
  | nil =>
    intro s sf evs h
    simp only [run, Option.some.injEq, Prod.mk.injEq] at h
    obtain ⟨h1, h2⟩ := h
    subst h1
    simp
  | cons op ops ih =>
    intro s sf evs h
    obtain ⟨s1, ev1, ev2, hs, hr, hevs⟩ := run_cons_inv h
    have hstep := step_ready_some hs
    have hiff := ih hr
    constructor
    · intro ht
      rcases hiff.mp ht with h1 | ⟨l, hl, hok⟩
      · by_cases hsr : s.ready = true
        · exact Or.inl hsr
        · obtain ⟨l, hl, hok⟩ :=
            (hstep.2 (by simpa using hsr)).1.mp h1
          exact Or.inr ⟨l, by rw [hl]; exact List.mem_cons_self _ _, hok⟩
      · exact Or.inr ⟨l, List.mem_cons_of_mem _ hl, hok⟩
    · intro hor
      rcases hor with hsr | ⟨l, hl, hok⟩
      · exact hiff.mpr (Or.inl (hstep.1 hsr))
      · rcases List.mem_cons.mp hl with heq | hmem
        · by_cases hsr : s.ready = true
          · exact hiff.mpr (Or.inl (hstep.1 hsr))
          · exact hiff.mpr (Or.inl
              ((hstep.2 (by simpa using hsr)).1.mpr ⟨l, heq.symm, hok⟩))
        · exact hiff.mpr (Or.inr ⟨l, hmem, hok⟩)

/-- C4: the ready flag never goes back from true to false under any
operation; while unready, a step turns it true exactly when the
received line starts with `OK`, and that greeting step resolves no
pending request; consequently, from the initial state, a connection is
ready after a trace exactly when some `OK` line was received in it. -/
theorem ready_transition :
    (∀ (s : ConnectionState) (op : Op) (s1 : ConnectionState)
        (evs : List Resolution), step s op = some (s1, evs) →
      (s.ready = true → s1.ready = true) ∧
      (s.ready = false →
        ((s1.ready = true) ↔
          ∃ l, op = Op.recv l ∧ startsWith okBytes l = true) ∧
        (s1.ready = true → evs = []))) ∧
    (∀ (ops : List Op) (sf : ConnectionState) (evs : List Resolution),
      run initState ops = some (sf, evs) →
      (sf.ready = true ↔ ∃ l, Op.recv l ∈ ops ∧ startsWith okBytes l = true)) := by
  refine ⟨fun s op s1 evs h => step_ready_some h, fun ops sf evs h => ?_⟩
  have := run_ready h
  simpa [initState] using this

/-- Witness for C4: the greeting `OK` turns the fresh connection ready
and fires no resolution. -/
theorem ready_transition_witness :
    ((⟨true, [], []⟩ : ConnectionState).ready = true ↔
      ∃ l, Op.recv [79, 75] = Op.recv l ∧ startsWith okBytes l = true) :=
  ((ready_transition.1 initState (Op.recv [79, 75]) ⟨true, [], []⟩ []
    (by decide)).2 rfl).1

/-- The number of `issueCommand` calls in a trace. -/
def countIssues : List Op → Nat
  | [] => 0
  | Op.issue _ :: ops => countIssues ops + 1
  | Op.recv _ :: ops => countIssues ops

theorem countIssues_cons (op : Op) (ops : List Op) :
    countIssues (op :: ops) = countIssues [op] + countIssues ops := by
  cases op with
  | issue r => simp [countIssues]; omega
  | recv l => simp [countIssues]

theorem step_count {s s1 : ConnectionState} {op : Op} {evs : List Resolution}
    (h : step s op = some (s1, evs)) :
    s1.dq.length + evs.length = s.dq.length + countIssues [op] := by
  cases op with
  | issue r =>
    simp only [step, Option.some.injEq, Prod.mk.injEq] at h
    obtain ⟨h1, h2⟩ := h
    subst h2
    rw [← h1]
    simp [issueCommand, countIssues]
  | recv l =>
    have hlr : lineReceived s l = some (s1, evs) := h
    rcases lineReceived_cases hlr with
      ⟨hh, h1, h2⟩ | ⟨hok, hrf, h1, h2⟩ | ⟨r, rest, hok, hrt, hq, h1, h2⟩ |
      ⟨hd, h1, h2⟩ | ⟨r, rest, herr, hq, h1, h2⟩ | ⟨hh, hok, hd, herr, h1, h2⟩
    · subst h1; subst h2; simp [countIssues]
    · subst h1; subst h2; simp [countIssues]
    · subst h1; subst h2; simp [countIssues, hq]
    · subst h1; subst h2; simp [countIssues]
    · subst h1; subst h2; simp [countIssues, hq]
    · subst h1; subst h2; simp [countIssues]

theorem run_count {ops : List Op} : ∀ {s sf : ConnectionState}
    {evs : List Resolution}, run s ops = some (sf, evs) →
    sf.dq.length + evs.length = s.dq.length + countIssues ops := by
  induction ops with
  | nil =>
    intro s sf evs h
    simp only [run, Option.some.injEq, Prod.mk.injEq] at h
    obtain ⟨h1, h2⟩ := h
    subst h1
    simp [countIssues, ← h2]
  | cons op ops ih =>
    intro s sf evs h
    obtain ⟨s1, ev1, ev2, hs, hr, hevs⟩ := run_cons_inv h
    have hst := step_count hs
    have hrn := ih hr
    rw [countIssues_cons]
    subst hevs
    simp only [List.length_append]
    omega

/-- C3 (amended): on every run from the initial state, the pending
queue's length equals the number of commands issued minus the number of
requests resolved; the data buffer is cleared when a request is
fulfilled by an `OK` line, but a request failed by an `ERR` line leaves
the buffer untouched, so fragments buffered for a failed request are
carried over (see `buffer_invariant_counterexample`). -/
theorem queue_and_buffer_invariant :
    (∀ (ops : List Op) (sf : ConnectionState) (evs : List Resolution),
      run initState ops = some (sf, evs) →
      sf.dq.length + evs.length = countIssues ops) ∧
    (∀ (s : ConnectionState) (l : List Nat) (s1 : ConnectionState)
        (evs : List Resolution) (r : Nat) (resp : AssuanResponse),
      lineReceived s l = some (s1, evs) →
      Resolution.fulfilled r resp ∈ evs → s1.bufferedData = []) ∧
    (∀ (s : ConnectionState) (l : List Nat) (s1 : ConnectionState)
        (evs : List Resolution) (r : Nat),
      lineReceived s l = some (s1, evs) →
      Resolution.failed r l ∈ evs → s1.bufferedData = s.bufferedData) := by
  refine ⟨fun ops sf evs h => ?_, fun s l s1 evs r resp h hm => ?_,
    fun s l s1 evs r h hm => ?_⟩
  · have := run_count h
    simpa [initState] using this
  · rcases lineReceived_cases h with
      ⟨hh, h1, h2⟩ | ⟨hok, hrf, h1, h2⟩ | ⟨r2, rest, hok, hrt, hq, h1, h2⟩ |
      ⟨hd, h1, h2⟩ | ⟨r2, rest, herr, hq, h1, h2⟩ | ⟨hh, hok, hd, herr, h1, h2⟩
    · subst h2; simp at hm
    · subst h2; simp at hm
    · subst h1; rfl
    · subst h2; simp at hm
    · subst h2; simp at hm
    · subst h2; simp at hm
  · rcases lineReceived_cases h with
      ⟨hh, h1, h2⟩ | ⟨hok, hrf, h1, h2⟩ | ⟨r2, rest, hok, hrt, hq, h1, h2⟩ |
      ⟨hd, h1, h2⟩ | ⟨r2, rest, herr, hq, h1, h2⟩ | ⟨hh, hok, hd, herr, h1, h2⟩
    · subst h2; simp at hm
    · subst h2; simp at hm
    · subst h2; simp at hm
    · subst h2; simp at hm
    · subst h1; rfl
    · subst h2; simp at hm

/-- Counterexample to C3 as stated: greeting, then request 1 receives a
data fragment `D x` and fails with `ERR c`; the fragment is NOT
discarded with request 1 — it reappears as the payload (`[120]`, the
decoded `x`) of the Response that fulfills the later request 2, so the
data buffer did not hold fragments belonging only to the oldest
unresolved request. -/
theorem buffer_invariant_counterexample :
    run initState
        [Op.recv [79, 75], Op.issue 1, Op.recv [68, 32, 120],
         Op.recv [69, 82, 82, 32, 99], Op.issue 2, Op.recv [79, 75, 32, 111]] =
      some (⟨true, [], []⟩,
        [Resolution.failed 1 [69, 82, 82, 32, 99],
         Resolution.fulfilled 2 ⟨[120], [79, 75, 32, 111]⟩]) := by decide

/-- Witness for C3 (amended), at a concrete fulfilled `OK` line: the
buffer is cleared. -/
theorem queue_and_buffer_invariant_witness :
    ((⟨true, [], []⟩ : ConnectionState)).bufferedData = [] :=
  queue_and_buffer_invariant.2.1 ⟨true, [7], [[1, 2]]⟩ [79, 75] ⟨true, [], []⟩
    [Resolution.fulfilled 7 ⟨[1, 2], [79, 75]⟩] 7 ⟨[1, 2], [79, 75]⟩
    (by decide) (by decide)

/-- The exceptions a `Pinentry.argv` call can produce:
`PinentryNotFound` (carrying the program name), Python's `OSError`
(carrying an errno), or any other exception class. -/
inductive PinFailure where
  | notFound (name : List Nat)
  | osError (errno : Nat)
  | otherFailure (e : Nat)
deriving DecidableEq, Repr

/-- `Pinentry`: a program name plus an `argumentFactory` returning
`argv[1:]`, which may instead raise (modelled by `Except`). -/
structure Pinentry where
  name : List Nat
  argumentFactory : Unit → Except PinFailure (List (List Nat))

/-- `Pinentry.argv`: `argv = _which(self._name)[:1]`; if empty, raise
`PinentryNotFound(self._name)`; otherwise extend with the factory's
arguments (a factory exception propagates). -/
def Pinentry.argv (p : Pinentry) (whichFn : List Nat → List (List Nat)) :
    Except PinFailure (List (List Nat)) :=
  match (whichFn p.name).take 1 with
  | [] => Except.error (PinFailure.notFound p.name)
  | path :: _ =>
    match p.argumentFactory () with
    | Except.error e => Except.error e
    | Except.ok args => Except.ok (path :: args)

/-- `b"--ttyname"` -/
def ttynameFlag : List Nat := [45, 45, 116, 116, 121, 110, 97, 109, 101]

/-- `ttynameArgument`: returns `['--ttyname', os.ttyname(stdout)]`, or
raises `OSError` when stdout has no terminal.  The `os.ttyname` query
is modelled by its result: `some path` when stdout is a terminal with
that path, `none` (errno 25, `ENOTTY`) otherwise. -/
def ttynameArgument (tty : Option (List Nat)) :
    Except PinFailure (List (List Nat)) :=
  match tty with
  | none => Except.error (PinFailure.osError 25)
  | some path => Except.ok [ttynameFlag, path]

/-- The exception classes caught by `choosePinentry`'s
`except (PinentryNotFound, OSError)` clause. -/
def skippable : PinFailure → Bool
  | PinFailure.notFound _ => true
  | PinFailure.osError _ => true
  | PinFailure.otherFailure _ => false

/-- Outcome of `choosePinentry`: an argv list, the final
`RuntimeError("Cannot find a pinentry ...")`, or an exception that the
loop's `except` clause does not catch. -/
inductive ChooseResult where
  | chosen (argv : List (List Nat))
  | noPinentry
  | raised (e : PinFailure)
deriving DecidableEq, Repr

/-- `choosePinentry`: try each candidate's `argv()` in order, skipping
`PinentryNotFound` and `OSError`; raise `RuntimeError` when the list is
exhausted. -/
def choosePinentry (whichFn : List Nat → List (List Nat)) :
    List Pinentry → ChooseResult
  | [] => ChooseResult.noPinentry
  | p :: rest =>
    match p.argv whichFn with
    | Except.ok a => ChooseResult.chosen a
    | Except.error e =>
      if skippable e then choosePinentry whichFn rest
      else ChooseResult.raised e

/-- C9: `Pinentry.argv` fails with `PinentryNotFound` exactly when path
resolution returns no candidates (given that the argument factory's
failures are not `PinentryNotFound`, as with the OS-level failures of
`ttynameArgument`); with candidates, the resolved command is the first
candidate followed by the factory's arguments, and a factory failure
propagates unchanged; `ttynameArgument` with no terminal on stdout
fails with `OSError`, never with `PinentryNotFound`. -/
theorem argv_resolution (name : List Nat)
    (factory : Unit → Except PinFailure (List (List Nat)))
    (whichFn : List Nat → List (List Nat)) :
    (whichFn name = [] →
      Pinentry.argv ⟨name, factory⟩ whichFn =
        Except.error (PinFailure.notFound name)) ∧
    (∀ path rest args, whichFn name = path :: rest →
      factory () = Except.ok args →
      Pinentry.argv ⟨name, factory⟩ whichFn = Except.ok (path :: args)) ∧
    (∀ path rest e, whichFn name = path :: rest →
      factory () = Except.error e →
      Pinentry.argv ⟨name, factory⟩ whichFn = Except.error e) ∧
    ((∀ e, factory () = Except.error e → ∀ m, e ≠ PinFailure.notFound m) →
      ∀ m, Pinentry.argv ⟨name, factory⟩ whichFn =
          Except.error (PinFailure.notFound m) ↔
        (whichFn name = [] ∧ m = name)) ∧
    (∀ m, ttynameArgument none ≠ Except.error (PinFailure.notFound m)) ∧
    (∃ n, ttynameArgument none = Except.error (PinFailure.osError n)) := by
  refine ⟨fun hw => ?_, fun path rest args hw hf => ?_,
    fun path rest e hw hf => ?_, fun hnf m => ?_, fun m => ?_, ⟨25, rfl⟩⟩
  · simp [Pinentry.argv, hw]
  · simp [Pinentry.argv, hw, hf]
  · simp [Pinentry.argv, hw, hf]
  · constructor
    · intro h
      cases hw : whichFn name with
      | nil =>
        refine ⟨rfl, ?_⟩
        simp [Pinentry.argv, hw] at h
        exact h.symm
      | cons path rest =>
        exfalso
        cases hf : factory () with
        | error e =>
          simp [Pinentry.argv, hw, hf] at h
          exact hnf e hf m h
        | ok args => simp [Pinentry.argv, hw, hf] at h
    · rintro ⟨hw, rfl⟩
      simp [Pinentry.argv, hw]
  · simp [ttynameArgument]

/-- Witness for C9: `which` finds nothing, so `argv` raises
`PinentryNotFound`. -/
theorem argv_resolution_witness :
    Pinentry.argv ⟨[112], fun _ => Except.ok []⟩ (fun _ => []) =
      Except.error (PinFailure.notFound [112]) :=
  (argv_resolution [112] (fun _ => Except.ok []) (fun _ => [])).1 rfl

/-- C8: `choosePinentry` returns the resolved command of the first
candidate whose `argv()` succeeds, skipping exactly the candidates that
fail with `PinentryNotFound` or `OSError`; if every candidate fails
with one of those two kinds, or the list is empty, it raises
`RuntimeError`; any other failure kind propagates immediately. -/
theorem choose_pinentry_selection (whichFn : List Nat → List (List Nat))
    (ps : List Pinentry) :
    (choosePinentry whichFn [] = ChooseResult.noPinentry) ∧
    ((∀ p ∈ ps, ∃ e, p.argv whichFn = Except.error e ∧ skippable e = true) →
      choosePinentry whichFn ps = ChooseResult.noPinentry) ∧
    (∀ pre p post a, ps = pre ++ p :: post →
      (∀ q ∈ pre, ∃ e, q.argv whichFn = Except.error e ∧ skippable e = true) →
      p.argv whichFn = Except.ok a →
      choosePinentry whichFn ps = ChooseResult.chosen a) ∧
    (∀ pre p post e, ps = pre ++ p :: post →
      (∀ q ∈ pre, ∃ e2, q.argv whichFn = Except.error e2 ∧ skippable e2 = true) →
      p.argv whichFn = Except.error e → skippable e = false →
      choosePinentry whichFn ps = ChooseResult.raised e) := by
  refine ⟨rfl, ?_, ?_, ?_⟩
  · intro hall
    induction ps with
    | nil => rfl
    | cons p rest ih =>
      obtain ⟨e, he, hs⟩ := hall p (List.mem_cons_self _ _)
      simp only [choosePinentry, he, hs, if_true]
      exact ih fun q hq => hall q (List.mem_cons_of_mem _ hq)
  · intro pre p post a hps hpre hok
    subst hps
    induction pre with
    | nil => simp [choosePinentry, hok]
    | cons q pre ih =>
      obtain ⟨e, he, hs⟩ := hpre q (List.mem_cons_self _ _)
      simp only [List.cons_append, choosePinentry, he, hs, if_true]
      exact ih fun q2 hq2 => hpre q2 (List.mem_cons_of_mem _ hq2)
  · intro pre p post e hps hpre herr hns
    subst hps
    induction pre with
    | nil => simp [choosePinentry, herr, hns]
    | cons q pre ih =>
      obtain ⟨e2, he2, hs2⟩ := hpre q (List.mem_cons_self _ _)
      simp only [List.cons_append, choosePinentry, he2, hs2, if_true]
      exact ih fun q2 hq2 => hpre q2 (List.mem_cons_of_mem _ hq2)

/-- Witness for C8: one not-found candidate followed by one resolvable
candidate selects the second candidate's argv. -/
theorem choose_pinentry_selection_witness :
    choosePinentry (fun _ => [[47, 98]])
        [⟨[109], fun _ => Except.error (PinFailure.notFound [109])⟩,
         ⟨[112], fun _ => Except.ok [[45]]⟩] =
      ChooseResult.chosen [[47, 98], [45]] :=
  (choose_pinentry_selection (fun _ => [[47, 98]])
      [⟨[109], fun _ => Except.error (PinFailure.notFound [109])⟩,
       ⟨[112], fun _ => Except.ok [[45]]⟩]).2.2.1
    [⟨[109], fun _ => Except.error (PinFailure.notFound [109])⟩]
    ⟨[112], fun _ => Except.ok [[45]]⟩ [] [[47, 98], [45]] rfl
    (by
      intro q hq
      simp only [List.mem_singleton] at hq
      subst hq
      exact ⟨PinFailure.notFound [109], rfl, rfl⟩)
    rfl

/-- The line `issueCommand` sends: `b" ".join([command] + args)`. -/
def cmdLine (command : List Nat) (args : List (List Nat)) : List Nat :=
  List.intercalate [32] (command :: args)

/-- `b"SETPROMPT"` -/
def setpromptBytes : List Nat := [83, 69, 84, 80, 82, 79, 77, 80, 84]

/-- `b"SETTITLE"` -/
def settitleBytes : List Nat := [83, 69, 84, 84, 73, 84, 76, 69]

/-- `b"SETDESC"` -/
def setdescBytes : List Nat := [83, 69, 84, 68, 69, 83, 67]

/-- `b"GETPIN"` -/
def getpinBytes : List Nat := [71, 69, 84, 80, 73, 78]

/-- `b"BYE"` -/
def byeBytes : List Nat := [66, 89, 69]

/-- How the peer resolves one issued command's pending request: the
`callback` with a response, or the `errback` with an `AssuanError`
carrying the raw `ERR` line (the FIFO correlation of `lineReceived`,
proven above, delivers these in issue order). -/
inductive Reply where
  | ok (resp : AssuanResponse)
  | err (line : List Nat)

/-- The four session command lines of `askForPassword`, in order. -/
def sessionCmds (prompt title description : List Nat) : List (List Nat) :=
  [cmdLine setpromptBytes [prompt], cmdLine settitleBytes [title],
   cmdLine setdescBytes [description], cmdLine getpinBytes []]

/-- `askForPassword`'s command traffic against a peer whose reply to
the i-th awaited command of this session is `replies i`: issue
`SETPROMPT`, `SETTITLE`, `SETDESC`, `GETPIN` strictly sequentially,
each awaited (an `err` reply raises, aborting the rest), with
`issueCommand(b"BYE")` in the `finally` block on every exit path (its
outcome is discarded, so the oracle is not consulted for it).  Returns
the command lines sent, and the session outcome: the `GETPIN`
response's payload (its UTF-8 decoding is the identity of the byte
model) or the raised `AssuanError` line. -/
def askForPassword (prompt title description : List Nat)
    (replies : Nat → Reply) :
    List (List Nat) × Except (List Nat) (List Nat) :=
  let c0 := cmdLine setpromptBytes [prompt]
  let c1 := cmdLine settitleBytes [title]
  let c2 := cmdLine setdescBytes [description]
  let c3 := cmdLine getpinBytes []
  let bye := cmdLine byeBytes []
  match replies 0 with
  | Reply.err e => ([c0, bye], Except.error e)
  | Reply.ok _ =>
    match replies 1 with
    | Reply.err e => ([c0, c1, bye], Except.error e)
    | Reply.ok _ =>
      match replies 2 with
      | Reply.err e => ([c0, c1, c2, bye], Except.error e)
      | Reply.ok _ =>
        match replies 3 with
        | Reply.err e => ([c0, c1, c2, c3, bye], Except.error e)
        | Reply.ok resp => ([c0, c1, c2, c3, bye], Except.ok resp.data)

/-- C5: the commands a session sends are a prefix of `SETPROMPT`,
`SETTITLE`, `SETDESC`, `GETPIN` (strictly sequential: the first failed
reply, if any at position j, cuts the sequence right after command j)
followed on every exit path by a final `BYE`; on success all four were
sent and the returned secret is exactly the `GETPIN` response's
payload. -/
theorem session_command_sequence (p t d : List Nat) (replies : Nat → Reply) :
    (∃ k, k ≤ 4 ∧ (askForPassword p t d replies).1 =
      (sessionCmds p t d).take k ++ [cmdLine byeBytes []]) ∧
    (∀ j e, j < 4 → (∀ i, i < j → ∃ resp, replies i = Reply.ok resp) →
      replies j = Reply.err e →
      (askForPassword p t d replies).1 =
        (sessionCmds p t d).take (j + 1) ++ [cmdLine byeBytes []] ∧
      (askForPassword p t d replies).2 = Except.error e) ∧
    (∀ data, (askForPassword p t d replies).2 = Except.ok data →
      (askForPassword p t d replies).1 =
        sessionCmds p t d ++ [cmdLine byeBytes []] ∧
      ∃ dbg, replies 3 = Reply.ok ⟨data, dbg⟩) := by
  cases h0 : replies 0 with
  | err e0 =>
    refine ⟨⟨1, by omega, by simp [askForPassword, sessionCmds, h0]⟩, ?_, ?_⟩
    · intro j e hj hprev hje
      cases j with
      | zero =>
        rw [h0] at hje
        injection hje with he
        subst he
        exact ⟨by simp [askForPassword, sessionCmds, h0],
          by simp [askForPassword, h0]⟩
      | succ jj =>
        obtain ⟨resp, hr⟩ := hprev 0 (Nat.succ_pos jj)
        rw [h0] at hr
        exact absurd hr (by simp)
    · intro data hd
      rw [show (askForPassword p t d replies).2 = Except.error e0 by
        simp [askForPassword, h0]] at hd
      exact absurd hd (by simp)
  | ok r0 =>
    cases h1 : replies 1 with
    | err e1 =>
      refine ⟨⟨2, by omega, by simp [askForPassword, sessionCmds, h0, h1]⟩,
        ?_, ?_⟩
      · intro j e hj hprev hje
        interval_cases j
        · rw [h0] at hje; exact absurd hje (by simp)
        · rw [h1] at hje
          injection hje with he
          subst he
          exact ⟨by simp [askForPassword, sessionCmds, h0, h1],
            by simp [askForPassword, h0, h1]⟩
        · obtain ⟨resp, hr⟩ := hprev 1 (by omega)
          rw [h1] at hr
          exact absurd hr (by simp)
        · obtain ⟨resp, hr⟩ := hprev 1 (by omega)
          rw [h1] at hr
          exact absurd hr (by simp)
      · intro data hd
        rw [show (askForPassword p t d replies).2 = Except.error e1 by
          simp [askForPassword, h0, h1]] at hd
        exact absurd hd (by simp)
    | ok r1 =>
      cases h2 : replies 2 with
      | err e2 =>
        refine ⟨⟨3, by omega,
          by simp [askForPassword, sessionCmds, h0, h1, h2]⟩, ?_, ?_⟩
        · intro j e hj hprev hje
          interval_cases j
          · rw [h0] at hje; exact absurd hje (by simp)
          · rw [h1] at hje; exact absurd hje (by simp)
          · rw [h2] at hje
            injection hje with he
            subst he
            exact ⟨by simp [askForPassword, sessionCmds, h0, h1, h2],
              by simp [askForPassword, h0, h1, h2]⟩
          · obtain ⟨resp, hr⟩ := hprev 2 (by omega)
            rw [h2] at hr
            exact absurd hr (by simp)
        · intro data hd
          rw [show (askForPassword p t d replies).2 = Except.error e2 by
            simp [askForPassword, h0, h1, h2]] at hd
          exact absurd hd (by simp)
      | ok r2 =>
        cases h3 : replies 3 with
        | err e3 =>
          refine ⟨⟨4, by omega,
            by simp [askForPassword, sessionCmds, h0, h1, h2, h3]⟩, ?_, ?_⟩
          · intro j e hj hprev hje
            interval_cases j
            · rw [h0] at hje; exact absurd hje (by simp)
            · rw [h1] at hje; exact absurd hje (by simp)
            · rw [h2] at hje; exact absurd hje (by simp)
            · rw [h3] at hje
              injection hje with he
              subst he
              exact ⟨by simp [askForPassword, sessionCmds, h0, h1, h2, h3],
                by simp [askForPassword, h0, h1, h2, h3]⟩
          · intro data hd
            rw [show (askForPassword p t d replies).2 = Except.error e3 by
              simp [askForPassword, h0, h1, h2, h3]] at hd
            exact absurd hd (by simp)
        | ok r3 =>
          obtain ⟨d3, g3⟩ := r3
          refine ⟨⟨4, by omega,
            by simp [askForPassword, sessionCmds, h0, h1, h2, h3]⟩, ?_, ?_⟩
          · intro j e hj hprev hje
            interval_cases j
            · rw [h0] at hje; exact absurd hje (by simp)
            · rw [h1] at hje; exact absurd hje (by simp)
            · rw [h2] at hje; exact absurd hje (by simp)
            · rw [h3] at hje; exact absurd hje (by simp)
          · intro data hd
            rw [show (askForPassword p t d replies).2 = Except.ok d3 by
              simp [askForPassword, h0, h1, h2, h3]] at hd
            injection hd with hdd
            subst hdd
            exact ⟨by simp [askForPassword, sessionCmds, h0, h1, h2, h3],
              g3, rfl⟩

/-- Witness for C5: all four replies succeed; the secret is the
`GETPIN` payload `[115]`. -/
theorem session_command_sequence_witness :
    (askForPassword [112] [116] [100]
        (fun _ => Reply.ok ⟨[115], [79, 75]⟩)).1 =
      sessionCmds [112] [116] [100] ++ [cmdLine byeBytes []] ∧
    ∃ dbg, (fun _ => Reply.ok (⟨[115], [79, 75]⟩ : AssuanResponse)) 3 =
      Reply.ok ⟨[115], dbg⟩ :=
  (session_command_sequence [112] [116] [100]
    (fun _ => Reply.ok ⟨[115], [79, 75]⟩)).2.2 [115] rfl

/-- The keyring collaborator's state: a `(service, account) -> secret`
mapping (newest entry first), per its documented contract
(`get_password` / `set_password`, writes immediately visible to
subsequent reads). -/
def storeGet : List ((List Nat × List Nat) × List Nat) →
    (List Nat × List Nat) → Option (List Nat)
  | [], _ => none
  | kv :: rest, k => if kv.1 = k then some kv.2 else storeGet rest k

/-- `keyring.set_password`: record the secret under the key. -/
def storeSet (store : List ((List Nat × List Nat) × List Nat))
    (k : List Nat × List Nat) (v : List Nat) :
    List ((List Nat × List Nat) × List Nat) :=
  (k, v) :: store

theorem storeGet_storeSet (store : List ((List Nat × List Nat) × List Nat))
    (k : List Nat × List Nat) (v : List Nat) :
    storeGet (storeSet store k v) k = some v := by
  simp [storeGet, storeSet]

/-- An exception propagating out of `secretly`: the `AssuanError` of a
failed prompt session, or a failure raised by the consumer action. -/
inductive Exn where
  | assuanError (line : List Nat)
  | actionFailure (e : List Nat)
deriving DecidableEq, Repr

/-- The observable outcome of a `secretly` call: the command lines of
each prompt session started (in order), the `keyring.set_password`
calls made (in order), the arguments the consumer `action` was invoked
with (in order), and the value the resolver's `Deferred` fires with
(`Except.ok` of Python `None` modelled as `Option`, or the raised
exception). -/
structure Outcome where
  sessions : List (List (List Nat))
  setCalls : List ((List Nat × List Nat) × List Nat)
  actionCalls : List (List Nat)
  result : Except Exn (Option (List Nat))
deriving Repr

/-- The final `yield maybeDeferred(action, secret)` of the `secretly`
generator: the action's failure propagates, but there is no
`returnValue`, so on success the generator just completes and the
resolver's `Deferred` fires `None` — the action's successful value is
discarded. -/
def actionResult (a : Except Exn (List Nat)) : Except Exn (Option (List Nat)) :=
  match a with
  | Except.error e => Except.error e
  | Except.ok _ => Except.ok none

/-- `"Enter Password"` -/
def titleBytes : List Nat :=
  [69, 110, 116, 101, 114, 32, 80, 97, 115, 115, 119, 111, 114, 100]

/-- `"Password Prompt for {username}@{system}"` -/
def descriptionBytes (system username : List Nat) : List Nat :=
  [80, 97, 115, 115, 119, 111, 114, 100, 32, 80, 114, 111, 109, 112,
   116, 32, 102, 111, 114, 32] ++ username ++ [64] ++ system

/-- The `while True` loop of `secretly`: query the store; on a hit,
break out and run the final `yield maybeDeferred(action, secret)` (see
`actionResult`: the action's failure propagates, its successful value
is discarded and the resolver fires `None`); on a miss, run a prompt
session (`replies iter` is the peer's behavior in the iter-th session)
and persist its result, then loop.  `fuel` bounds the unbounded source
loop (`none` means the trace did not finish within `fuel` iterations);
`sessions` and `sets` accumulate the observable collaborator calls. -/
def secretlyLoop (system username prompt : List Nat)
    (replies : Nat → Nat → Reply)
    (action : List Nat → Except Exn (List Nat)) :
    Nat → List ((List Nat × List Nat) × List Nat) → Nat →
    List (List (List Nat)) → List ((List Nat × List Nat) × List Nat) →
    Option Outcome
  | 0, _, _, _, _ => none
  | fuel + 1, store, iter, sessions, sets =>
    match storeGet store (system, username) with
    | some secret =>
      some ⟨sessions, sets, [secret], actionResult (action secret)⟩
    | none =>
      let r := askForPassword prompt titleBytes
        (descriptionBytes system username) (replies iter)
      match r.2 with
      | Except.error e =>
        some ⟨sessions ++ [r.1], sets, [], Except.error (Exn.assuanError e)⟩
      | Except.ok data =>
        secretlyLoop system username prompt replies action fuel
          (storeSet store (system, username) data) (iter + 1)
          (sessions ++ [r.1]) (sets ++ [((system, username), data)])

/-- `secretly(reactor, action, system, username, prompt)` with the
defaults already resolved, against a given store state. -/
def secretly (system username prompt : List Nat)
    (replies : Nat → Nat → Reply)
    (action : List Nat → Except Exn (List Nat)) (fuel : Nat)
    (store : List ((List Nat × List Nat) × List Nat)) : Option Outcome :=
  secretlyLoop system username prompt replies action fuel store 0 [] []

theorem askForPassword_sent_shape (p t d : List Nat) (replies : Nat → Reply) :
    ∃ k, k ≤ 4 ∧ (askForPassword p t d replies).1 =
      (sessionCmds p t d).take k ++ [cmdLine byeBytes []] := by
  cases h0 : replies 0 with
  | err e0 => exact ⟨1, by omega, by simp [askForPassword, sessionCmds, h0]⟩
  | ok r0 =>
    cases h1 : replies 1 with
    | err e1 =>
      exact ⟨2, by omega, by simp [askForPassword, sessionCmds, h0, h1]⟩
    | ok r1 =>
      cases h2 : replies 2 with
      | err e2 =>
        exact ⟨3, by omega, by simp [askForPassword, sessionCmds, h0, h1, h2]⟩
      | ok r2 =>
        cases h3 : replies 3 with
        | err e3 =>
          exact ⟨4, by omega,
            by simp [askForPassword, sessionCmds, h0, h1, h2, h3]⟩
        | ok r3 =>
          exact ⟨4, by omega,
            by simp [askForPassword, sessionCmds, h0, h1, h2, h3]⟩

theorem askForPassword_first_err (p t d : List Nat) (replies : Nat → Reply)
    (j : Nat) (e : List Nat) (hj : j < 4)
    (hprev : ∀ i, i < j → ∃ resp, replies i = Reply.ok resp)
    (hje : replies j = Reply.err e) :
    (askForPassword p t d replies).2 = Except.error e := by
  interval_cases j
  · simp [askForPassword, hje]
  · obtain ⟨r0, h0⟩ := hprev 0 (by omega)
    simp [askForPassword, h0, hje]
  · obtain ⟨r0, h0⟩ := hprev 0 (by omega)
    obtain ⟨r1, h1⟩ := hprev 1 (by omega)
    simp [askForPassword, h0, h1, hje]
  · obtain ⟨r0, h0⟩ := hprev 0 (by omega)
    obtain ⟨r1, h1⟩ := hprev 1 (by omega)
    obtain ⟨r2, h2⟩ := hprev 2 (by omega)
    simp [askForPassword, h0, h1, h2, hje]

/-- C7 (code bug): `secretly`'s docstring promises a Deferred that
fires with the action's result, but the generator ends with
`yield maybeDeferred(action, secret)` and no `returnValue`, so the
Deferred fires `None` on success.  Evaluating the model at a concrete
failing input: a cached secret `[99]` is a hit (no session, no write),
the action is invoked with it and succeeds with `[99, 99]`, yet the
resolver's result is `None`, not `[99, 99]`; the second conjunct shows
the action's failure, by contrast, does propagate. -/
theorem resolver_result_bug :
    secretly [1] [2] [112] (fun _ _ => Reply.err [69, 82, 82])
        (fun v => Except.ok (v ++ v)) 1 [(([1], [2]), [99])] =
      some ⟨[], [], [[99]], Except.ok none⟩ ∧
    secretly [1] [2] [112] (fun _ _ => Reply.err [69, 82, 82])
        (fun _ => Except.error (Exn.actionFailure [7])) 1 [(([1], [2]), [99])] =
      some ⟨[], [], [[99]], Except.error (Exn.actionFailure [7])⟩ :=
  ⟨rfl, rfl⟩

/-- C6: when the store has no entry and the peer replies `ERR` to some
session command (all earlier ones succeeding), the resolution fails
with the `AssuanError`, `set_password` is never called (nor is the
consumer action invoked), and the session still sent `BYE` as its last
command line. -/
theorem err_session_aborts (store : List ((List Nat × List Nat) × List Nat))
    (sys usr prompt : List Nat) (replies : Nat → Nat → Reply)
    (action : List Nat → Except Exn (List Nat)) (fuel : Nat)
    (j : Nat) (e : List Nat)
    (hmiss : storeGet store (sys, usr) = none) (hj : j < 4)
    (hprev : ∀ i, i < j → ∃ resp, replies 0 i = Reply.ok resp)
    (hje : replies 0 j = Reply.err e) :
    ∃ sent,
      secretly sys usr prompt replies action (fuel + 1) store =
        some ⟨[sent], [], [], Except.error (Exn.assuanError e)⟩ ∧
      sent.getLast? = some (cmdLine byeBytes []) := by
  have herr := askForPassword_first_err prompt titleBytes
    (descriptionBytes sys usr) (replies 0) j e hj hprev hje
  obtain ⟨k, hk, hshape⟩ := askForPassword_sent_shape prompt titleBytes
    (descriptionBytes sys usr) (replies 0)
  refine ⟨(askForPassword prompt titleBytes (descriptionBytes sys usr)
    (replies 0)).1, ?_, ?_⟩
  · simp [secretly, secretlyLoop, hmiss, herr]
  · rw [hshape]
    exact List.getLast?_concat _

/-- Witness for C6: the peer cancels immediately (`ERR` to
`SETPROMPT`). -/
theorem err_session_aborts_witness :
    ∃ sent,
      secretly [1] [2] [112] (fun _ _ => Reply.err [69, 82, 82])
          (fun v => Except.ok v) 1 [] =
        some ⟨[sent], [], [], Except.error (Exn.assuanError [69, 82, 82])⟩ ∧
      sent.getLast? = some (cmdLine byeBytes []) :=
  err_session_aborts [] [1] [2] [112] (fun _ _ => Reply.err [69, 82, 82])
    (fun v => Except.ok v) 0 0 [69, 82, 82] rfl (by omega)
    (fun i hi => absurd hi (by omega)) rfl

/-- C10: a stored empty secret is a hit: no prompt session starts and
the action is invoked with the empty string; conversely, a prompt
session only ever starts when the store lookup found nothing. -/
theorem empty_secret_is_hit (store : List ((List Nat × List Nat) × List Nat))
    (sys usr prompt : List Nat) (replies : Nat → Nat → Reply)
    (action : List Nat → Except Exn (List Nat)) (fuel : Nat) :
    (storeGet store (sys, usr) = some [] →
      secretly sys usr prompt replies action (fuel + 1) store =
        some ⟨[], [], [[]], actionResult (action [])⟩) ∧
    (∀ out, secretly sys usr prompt replies action fuel store = some out →
      out.sessions ≠ [] → storeGet store (sys, usr) = none) := by
  constructor
  · intro hs
    simp [secretly, secretlyLoop, hs]
  · intro out hout hsess
    match fuel with
    | 0 => exact absurd hout (by simp [secretly, secretlyLoop])
    | fuel + 1 =>
      cases hg : storeGet store (sys, usr) with
      | none => rfl
      | some s =>
        simp [secretly, secretlyLoop, hg] at hout
        rw [← hout] at hsess
        exact absurd rfl hsess

/-- Witness for C10: a stored empty secret reaches the action
unchanged, with no session. -/
theorem empty_secret_is_hit_witness :
    secretly [1] [2] [112] (fun _ _ => Reply.err [69, 82, 82])
        (fun v => Except.ok v) 1 [(([1], [2]), [])] =
      some ⟨[], [], [[]], Except.ok none⟩ :=
  (empty_secret_is_hit [(([1], [2]), [])] [1] [2] [112]
    (fun _ _ => Reply.err [69, 82, 82]) (fun v => Except.ok v) 0).1 rfl

end Secretly
